import Mathlib

/-!
Shallow embedding of the fics-agent program (src/fics-agent.py).

The program parses the reply of a FICS "who" command into Player records
(class Player, regex Fics.WHO_REGEX) and reconciles one poll result per
cycle against a sqlite store with a players table and an observations
table (FicsAgent.loop).

Modelling conventions used throughout:
  * Python exceptions are modelled with Except: a KeyError from the
    STATUSES dict lookup in Player.__init__ and a sqlite3.IntegrityError
    from a UNIQUE-constraint violation are the two failures the claims
    exercise.
  * The frozenset built by Fics.who holds Player objects; class Player
    defines no __eq__ or __hash__, so membership is per constructed
    object (identity) and distinct tokens never collapse.  The
    collection is therefore modelled as the list of constructed records,
    one per matching token, in token order (Python iterates the
    frozenset in an unspecified order; every property proved here is
    insensitive to that order).
  * The two sqlite tables are lists of rows plus the AUTOINCREMENT
    counters.  The sqlite3 "with con:" block of FicsAgent.loop commits
    the cycle's writes on success and rolls the transaction back when a
    statement raises, which is modelled by the committed function.
-/

/-- Status enumerants: the value set of the Player.STATUSES dict. -/
inductive Status where
  | INGAME
  | SIMUL_MATCH
  | NOT_OPEN
  | EXAMINING
  | INACTIVE
  | INTOURNAMENT
deriving DecidableEq, Repr

/-- Player.STATUSES: the dict from status characters to status names.
A lookup of a character outside the six keys raises KeyError in Python,
modelled here by none. -/
def STATUSES : Char → Option Status
  | '^' => some .INGAME
  | '~' => some .SIMUL_MATCH
  | ':' => some .NOT_OPEN
  | '#' => some .EXAMINING
  | '.' => some .INACTIVE
  | '&' => some .INTOURNAMENT
  | _ => none

/-- Python exceptions reachable from the embedded code paths. -/
inductive PyErr where
  | keyError (c : Char)
  | integrityError (name : String)
deriving DecidableEq, Repr

/-- Class Player: rating is stored exactly as the matched digit string
(the source never converts it), status is the mapped enumerant, name is
the rest of the token. -/
structure Player where
  rating : String
  status : Status
  name : String
deriving DecidableEq, Repr

/-- Player.__init__: self.status = self.STATUSES[status] raises KeyError
when the character is not a key of the dict. -/
def Player.make (rating : String) (status : Char) (name : String) : Except PyErr Player :=
  match STATUSES status with
  | some s => .ok { rating := rating, status := s, name := name }
  | none => .error (.keyError status)

/-- Fics.WHO_REGEX.fullmatch with pattern ([0-9]+)([^0-9])(.+) applied to
one whitespace-free token.  The token matches exactly when it consists of
a nonempty maximal ASCII-digit prefix, one further character (necessarily
a non-digit, so the ([^0-9]) group is forced and no backtracking into the
greedy ([0-9]+) group can succeed), and a nonempty remainder.  Tokens
from str.split contain no newline, so (.+) matches any remainder. -/
def whoFullmatch (token : String) : Option (String × Char × String) :=
  let cs := token.toList
  let d := cs.takeWhile Char.isDigit
  match cs.dropWhile Char.isDigit with
  | c :: r1 :: r => if d.isEmpty then none else some (String.mk d, c, String.mk (r1 :: r))
  | _ => none

/-- Construction of one Player per regex match, in token order; the first
KeyError raised by Player.__init__ propagates, as it does out of the
strict frozenset(map(...)) consumption in Fics.who. -/
def playersOfGroups : List (String × Char × String) → Except PyErr (List Player)
  | [] => .ok []
  | g :: gs =>
    match Player.make g.1 g.2.1 g.2.2 with
    | .error e => .error e
    | .ok p =>
      match playersOfGroups gs with
      | .error e => .error e
      | .ok ps => .ok (p :: ps)

/-- Fics.who, from the token list onward: fullmatch each token, drop the
non-matching ones (filter(None, ...)), build one Player per match. -/
def who (tokens : List String) : Except PyErr (List Player) :=
  playersOfGroups (tokens.filterMap whoFullmatch)

/-- Accumulator-based tokenizer: splits a character list on whitespace
runs, yielding no empty tokens. -/
def splitAux : List Char → List Char → List String
  | [], acc => if acc.isEmpty then [] else [String.mk acc.reverse]
  | c :: cs, acc =>
    if c.isWhitespace then
      if acc.isEmpty then splitAux cs []
      else String.mk acc.reverse :: splitAux cs []
    else splitAux cs (c :: acc)

/-- Python str.split() with no argument: split on whitespace runs and
drop empty pieces. -/
def pythonSplit (s : String) : List String :=
  splitAux s.toList []

/-- Base-10 value of a digit string (used only to state that a rating
token's numeric value is what the claims quote; the source itself keeps
the digit string). -/
def digitsToNat (s : String) : Nat :=
  s.toList.foldl (fun acc c => 10 * acc + (c.toNat - 48)) 0

/-- Fics.who from the raw reply text read up to the completion marker. -/
def whoReply (reply : String) : Except PyErr (List Player) :=
  who (pythonSplit reply)

/-- Row of the players table: id INTEGER PRIMARY KEY AUTOINCREMENT,
name TEXT NOT NULL UNIQUE. -/
structure PlayerRow where
  id : Nat
  name : String
deriving DecidableEq, Repr

/-- Row of the observations table (the timestamp column is filled by
sqlite and not modelled; rating is stored as the bound digit string,
which sqlite's INT affinity keeps as its numeric value). -/
structure ObservationRow where
  id : Nat
  playerid : Nat
  rating : String
  status : Status
deriving DecidableEq, Repr

/-- The sqlite database fics.db: both tables plus AUTOINCREMENT state. -/
structure DB where
  players : List PlayerRow
  observations : List ObservationRow
  nextPlayerId : Nat
  nextObsId : Nat
deriving DecidableEq, Repr

/-- SELECT name FROM players (the playersDB set read by the loop). -/
def DB.names (db : DB) : List String :=
  db.players.map PlayerRow.name

/-- Well-formedness maintained by the UNIQUE constraint on players.name. -/
def DB.wf (db : DB) : Prop :=
  db.names.Nodup

instance (db : DB) : Decidable db.wf :=
  inferInstanceAs (Decidable db.names.Nodup)

/-- INSERT INTO players (name) VALUES (?): sqlite raises IntegrityError
when the UNIQUE constraint on name is violated. -/
def insertPlayer (db : DB) (n : String) : Except PyErr DB :=
  if n ∈ db.names then .error (.integrityError n)
  else .ok { db with
    players := db.players ++ [{ id := db.nextPlayerId, name := n }],
    nextPlayerId := db.nextPlayerId + 1 }

/-- cur.executemany over the new-player INSERT: sequential inserts, the
first IntegrityError aborts the statement. -/
def insertPlayers : DB → List String → Except PyErr DB
  | db, [] => .ok db
  | db, n :: ns =>
    match insertPlayer db n with
    | .error e => .error e
    | .ok db1 => insertPlayers db1 ns

/-- INSERT INTO observations (playerid, rating, status) SELECT id,
:rating, :status FROM players WHERE name = :name for one Player: one
observation row per players row whose name matches (zero rows when the
name is absent, with no error). -/
def insertObservation (db : DB) (p : Player) : DB :=
  let rows := db.players.filter (fun r => r.name = p.name)
  { db with
    observations := db.observations ++
      rows.enum.map (fun ie =>
        { id := db.nextObsId + ie.1, playerid := ie.2.id,
          rating := p.rating, status := p.status }),
    nextObsId := db.nextObsId + rows.length }

/-- cur.executemany of the observation INSERT over every parsed Player. -/
def insertObservations : DB → List Player → DB
  | db, [] => db
  | db, p :: ps => insertObservations (insertObservation db p) ps

/-- Python set construction over a list of names: duplicates removed,
first occurrence kept as the representative order of this linearization
(the set itself is unordered; nothing proved below depends on order). -/
def pySet : List String → List String
  | [] => []
  | n :: ns => n :: (pySet ns).filter (fun m => m ≠ n)

/-- newPlayers = playersFicsSet - playersDB: the observed names as a set,
minus the known names. -/
def freshNames (known : List String) (ps : List Player) : List String :=
  (pySet (ps.map Player.name)).filter (fun n => n ∉ known)

/-- The write portion of one loop cycle, with the known-name set it acts
against passed explicitly: insert the fresh names into players, then one
observation statement per parsed Player.  Passing a known set older than
db models the concurrent-duplicate race of a second writer; the in-order
single-process cycle is runCycle below. -/
def runCycleWith (known : List String) (db : DB) (ps : List Player) : Except PyErr DB :=
  match insertPlayers db (freshNames known ps) with
  | .error e => .error e
  | .ok db1 => .ok (insertObservations db1 ps)

/-- One cycle of FicsAgent.loop after Fics.who returned: the known names
are read from the same database state the writes are applied to. -/
def runCycle (db : DB) (ps : List Player) : Except PyErr DB :=
  runCycleWith db.names db ps

/-- Transaction semantics of the sqlite3 "with con:" block: the new state
is visible only when every statement succeeded; an exception rolls the
whole transaction back to the entry state. -/
def committed (db : DB) : Except PyErr DB → DB
  | .ok db1 => db1
  | .error _ => db

/-- Database state visible after one cycle's transaction finished or was
rolled back. -/
def runCycleCommitted (known : List String) (db : DB) (ps : List Player) : DB :=
  committed db (runCycleWith known db ps)

/-- What the loop consumes in one iteration: either a KeyboardInterrupt /
SystemExit style cancellation, or the token list of one who reply. -/
inductive CycleInput where
  | cancel
  | reply (tokens : List String)
deriving Repr

/-- Observable fate of the loop after consuming a finite input trace:
still running, cleanly cancelled (the except clause ran self.close()),
or terminated by an uncaught exception that escaped the while loop. -/
inductive LoopState where
  | running (db : DB)
  | cancelled (db : DB)
  | crashed (e : PyErr) (db : DB)
deriving DecidableEq, Repr

/-- One iteration body of FicsAgent.loop: Fics.who, then the write
transaction; an exception from either aborts the iteration with the
database unchanged (who runs before the connection opens, and a failed
transaction is rolled back). -/
def loopStep (db : DB) (tokens : List String) : Except PyErr DB :=
  match who tokens with
  | .error e => .error e
  | .ok ps => runCycle db ps

/-- FicsAgent.loop over a finite trace of cycle inputs.  The try/except
around the while loop catches only (KeyboardInterrupt, SystemExit); any
other exception propagates and ends the loop as crashed. -/
def loopRun : DB → List CycleInput → LoopState
  | db, [] => .running db
  | db, .cancel :: _ => .cancelled db
  | db, .reply ts :: rest =>
    match loopStep db ts with
    | .ok db1 => loopRun db1 rest
    | .error e => .crashed e db

/-! Concrete fixtures used by the closed theorems below. -/

/-- Empty database, as after setupDB on a fresh fics.db. -/
def db0 : DB := ⟨[], [], 1, 1⟩

/-- Database already holding player "A". -/
def dbA : DB := ⟨[⟨1, "A"⟩], [], 2, 1⟩

/-- Database already holding players "A" and "B". -/
def dbAB : DB := ⟨[⟨1, "A"⟩, ⟨2, "B"⟩], [], 3, 1⟩

/-- Parsed record for player "A". -/
def pA : Player := ⟨"1500", Status.NOT_OPEN, "A"⟩

/-- Parsed record for player "B". -/
def pB : Player := ⟨"1600", Status.INGAME, "B"⟩

/-- Parsed record for a player absent from the players table. -/
def pGhost : Player := ⟨"1200", Status.EXAMINING, "Ghost"⟩

/-- Poll result with observed names B and C. -/
def psBC : List Player := [⟨"1500", Status.NOT_OPEN, "B"⟩, ⟨"2100", Status.INGAME, "C"⟩]

/-- Poll result in which two distinct records carry the same name. -/
def psFoo : List Player := [⟨"10", Status.INGAME, "Foo"⟩, ⟨"11", Status.INACTIVE, "Foo"⟩]

/-- State visible after cycle one over psFoo starting from db0. -/
def dbFoo1 : DB := committed db0 (runCycle db0 psFoo)

/-- State visible after cycle two over the identical psFoo reply. -/
def dbFoo2 : DB := committed dbFoo1 (runCycle dbFoo1 psFoo)

/-! Helper lemmas about the set and table operations. -/

lemma pySet_nodup : ∀ l : List String, (pySet l).Nodup
  | [] => List.nodup_nil
  | n :: ns => by
    rw [pySet, List.nodup_cons]
    refine ⟨fun hmem => ?_, (pySet_nodup ns).filter _⟩
    have h := (List.mem_filter.mp hmem).2
    simp at h

lemma mem_pySet : ∀ (l : List String) (x : String), x ∈ pySet l ↔ x ∈ l
  | [], x => Iff.rfl
  | n :: ns, x => by
    by_cases h : x = n <;>
      simp [pySet, List.mem_filter, h, mem_pySet ns x]

lemma pySet_eq_of_nodup : ∀ {l : List String}, l.Nodup → pySet l = l
  | [], _ => rfl
  | n :: ns, h => by
    rw [List.nodup_cons] at h
    rw [pySet, pySet_eq_of_nodup h.2, List.filter_eq_self.mpr ?_]
    intro a ha
    simp only [ne_eq, decide_not, Bool.not_eq_true', decide_eq_false_iff_not]
    exact fun hc => h.1 (hc ▸ ha)

lemma freshNames_nodup (known : List String) (ps : List Player) :
    (freshNames known ps).Nodup :=
  (pySet_nodup _).filter _

lemma mem_freshNames {known : List String} {ps : List Player} {n : String} :
    n ∈ freshNames known ps ↔ n ∈ ps.map Player.name ∧ n ∉ known := by
  unfold freshNames
  rw [List.mem_filter, mem_pySet]
  simp

lemma filter_name_nil {l : List PlayerRow} {n : String}
    (h : n ∉ l.map PlayerRow.name) :
    l.filter (fun r => r.name = n) = [] := by
  induction l with
  | nil => rfl
  | cons a t ih =>
    rw [List.map_cons, List.mem_cons] at h
    push_neg at h
    rw [List.filter_cons]
    have ha : ¬ (a.name = n) := fun hc => h.1 hc.symm
    simp [ha, ih h.2]

lemma filter_name_singleton {l : List PlayerRow} {n : String}
    (hnd : (l.map PlayerRow.name).Nodup) (hm : n ∈ l.map PlayerRow.name) :
    ∃ r, l.filter (fun x => x.name = n) = [r] ∧ r ∈ l ∧ r.name = n := by
  induction l with
  | nil => simp at hm
  | cons a t ih =>
    rw [List.map_cons, List.nodup_cons] at hnd
    rw [List.map_cons, List.mem_cons] at hm
    rcases hm with h | h
    · refine ⟨a, ?_, List.mem_cons_self a t, h.symm⟩
      rw [List.filter_cons]
      have hnil : t.filter (fun x => x.name = n) = [] :=
        filter_name_nil (h ▸ hnd.1)
      simp [h.symm, hnil]
    · have han : ¬ (a.name = n) := fun hc => hnd.1 (hc ▸ h)
      obtain ⟨r, hr1, hr2, hr3⟩ := ih hnd.2 h
      refine ⟨r, ?_, List.mem_cons_of_mem a hr2, hr3⟩
      rw [List.filter_cons]
      simp [han, hr1]

lemma insertPlayer_spec (db : DB) (n : String) (h : n ∉ db.names) :
    insertPlayer db n =
      .ok ⟨db.players ++ [⟨db.nextPlayerId, n⟩], db.observations,
           db.nextPlayerId + 1, db.nextObsId⟩ := by
  unfold insertPlayer
  simp [h]

lemma insertPlayer_err (db : DB) (n : String) (h : n ∈ db.names) :
    insertPlayer db n = .error (.integrityError n) := by
  unfold insertPlayer
  simp [h]

lemma insertPlayers_spec (l : List String) : ∀ db : DB,
    l.Nodup → (∀ n ∈ l, n ∉ db.names) →
    ∃ db1, insertPlayers db l = .ok db1 ∧ db1.names = db.names ++ l ∧
      db1.observations = db.observations := by
  induction l with
  | nil =>
    intro db _ _
    exact ⟨db, rfl, by simp, rfl⟩
  | cons n ns ih =>
    intro db hnd hni
    have hn : n ∉ db.names := hni n (List.mem_cons_self n ns)
    rw [List.nodup_cons] at hnd
    have hstep := insertPlayer_spec db n hn
    have hpre : ∀ m ∈ ns,
        m ∉ (DB.mk (db.players ++ [⟨db.nextPlayerId, n⟩]) db.observations
              (db.nextPlayerId + 1) db.nextObsId).names := by
      intro m hm
      have hmn : m ≠ n := fun hc => hnd.1 (hc ▸ hm)
      have hmd := hni m (List.mem_cons_of_mem n hm)
      simp only [DB.names, List.map_append, List.mem_append] at hmd ⊢
      rintro (hl | hr)
      · exact hmd hl
      · simp at hr
        exact hmn hr
    obtain ⟨db1, h1, h2, h3⟩ :=
      ih ⟨db.players ++ [⟨db.nextPlayerId, n⟩], db.observations,
          db.nextPlayerId + 1, db.nextObsId⟩ hnd.2 hpre
    refine ⟨db1, ?_, ?_, h3⟩
    · simp only [insertPlayers, hstep]
      exact h1
    · rw [h2]
      simp [DB.names]

lemma insertPlayers_error_of_mem (l : List String) : ∀ (db : DB) (n : String),
    n ∈ l → n ∈ db.names → ∃ e, insertPlayers db l = .error e := by
  induction l with
  | nil =>
    intro db n h
    simp at h
  | cons a t ih =>
    intro db n hn hdb
    by_cases ha : a ∈ db.names
    · exact ⟨.integrityError a, by simp only [insertPlayers, insertPlayer_err db a ha]⟩
    · have hne : n ≠ a := fun hc => ha (hc ▸ hdb)
      have hnt : n ∈ t := (List.mem_cons.mp hn).resolve_left hne
      have hstep := insertPlayer_spec db a ha
      have hpre : n ∈ (DB.mk (db.players ++ [⟨db.nextPlayerId, a⟩]) db.observations
          (db.nextPlayerId + 1) db.nextObsId).names := by
        simp only [DB.names, List.map_append, List.mem_append]
        exact Or.inl hdb
      obtain ⟨e, he⟩ :=
        ih ⟨db.players ++ [⟨db.nextPlayerId, a⟩], db.observations,
            db.nextPlayerId + 1, db.nextObsId⟩ n hnt hpre
      exact ⟨e, by simp only [insertPlayers, hstep, he]⟩

lemma insertObservation_players (db : DB) (p : Player) :
    (insertObservation db p).players = db.players := rfl

lemma insertObservation_names (db : DB) (p : Player) :
    (insertObservation db p).names = db.names := rfl

lemma insertObservation_mono {db : DB} {p : Player} {r : ObservationRow}
    (h : r ∈ db.observations) : r ∈ (insertObservation db p).observations := by
  unfold insertObservation
  simp only [List.mem_append]
  exact Or.inl h

lemma insertObservation_spec (db : DB) (p : Player) (hwf : db.wf)
    (hm : p.name ∈ db.names) :
    (insertObservation db p).observations.length = db.observations.length + 1 ∧
    ∃ r ∈ (insertObservation db p).observations,
      r.rating = p.rating ∧ r.status = p.status ∧
      ∃ pr ∈ db.players, pr.name = p.name ∧ r.playerid = pr.id := by
  obtain ⟨row, h1, h2, h3⟩ := filter_name_singleton hwf hm
  unfold insertObservation
  rw [h1]
  refine ⟨by simp, ?_⟩
  refine ⟨⟨db.nextObsId, row.id, p.rating, p.status⟩, ?_, rfl, rfl, row, h2, h3, rfl⟩
  simp [List.enum]

lemma insertObservations_players : ∀ (ps : List Player) (db : DB),
    (insertObservations db ps).players = db.players
  | [], _ => rfl
  | p :: ps, db => by
    rw [insertObservations, insertObservations_players ps, insertObservation_players]

lemma insertObservations_mono : ∀ (ps : List Player) (db : DB) (r : ObservationRow),
    r ∈ db.observations → r ∈ (insertObservations db ps).observations
  | [], _, _, h => h
  | p :: ps, db, r, h => by
    rw [insertObservations]
    exact insertObservations_mono ps _ r (insertObservation_mono h)

lemma insertObservations_spec : ∀ (ps : List Player) (db : DB),
    db.wf → (∀ p ∈ ps, p.name ∈ db.names) →
    (insertObservations db ps).observations.length =
      db.observations.length + ps.length ∧
    ∀ p ∈ ps, ∃ r ∈ (insertObservations db ps).observations,
      r.rating = p.rating ∧ r.status = p.status ∧
      ∃ pr ∈ db.players, pr.name = p.name ∧ r.playerid = pr.id := by
  intro ps
  induction ps with
  | nil =>
    intro db _ _
    exact ⟨by simp [insertObservations], by simp⟩
  | cons p ps ih =>
    intro db hwf hall
    have hp : p.name ∈ db.names := hall p (List.mem_cons_self p ps)
    obtain ⟨hlen1, r, hrm, hrr, hrs, pr, hq1, hq2, hq3⟩ :=
      insertObservation_spec db p hwf hp
    have hpl := insertObservation_players db p
    have hnm := insertObservation_names db p
    have hwf2 : (insertObservation db p).wf := by
      unfold DB.wf
      rw [hnm]
      exact hwf
    have hall2 : ∀ q ∈ ps, q.name ∈ (insertObservation db p).names := by
      rw [hnm]
      exact fun q hq => hall q (List.mem_cons_of_mem p hq)
    obtain ⟨ihlen, ihrec⟩ := ih (insertObservation db p) hwf2 hall2
    constructor
    · rw [insertObservations, ihlen, hlen1, List.length_cons]
      omega
    · intro q hq
      rcases List.mem_cons.mp hq with rfl | hq2
      · refine ⟨r, ?_, hrr, hrs, pr, hq1, hq2, hq3⟩
        rw [insertObservations]
        exact insertObservations_mono ps _ r hrm
      · obtain ⟨r2, hh1, hh2, hh3, pr2, hh4, hh5, hh6⟩ := ihrec q hq2
        rw [hpl] at hh4
        refine ⟨r2, ?_, hh2, hh3, pr2, hh4, hh5, hh6⟩
        rw [insertObservations]
        exact hh1

/-- Combined behaviour of one successful in-order cycle, shared by the
set-algebra and idempotence theorems below. -/
lemma runCycle_main (db : DB) (ps : List Player) (hwf : db.wf) :
    ∃ db2, runCycle db ps = .ok db2 ∧
      db2.names = db.names ++ freshNames db.names ps ∧
      db2.wf ∧
      (∀ p ∈ ps, p.name ∈ db2.names) ∧
      db2.observations.length = db.observations.length + ps.length ∧
      ∀ p ∈ ps, ∃ r ∈ db2.observations,
        r.rating = p.rating ∧ r.status = p.status ∧
        ∃ pr ∈ db2.players, pr.name = p.name ∧ r.playerid = pr.id := by
  have hfn : ∀ n ∈ freshNames db.names ps, n ∉ db.names :=
    fun n h => (mem_freshNames.mp h).2
  obtain ⟨db1, h1, h2, h3⟩ :=
    insertPlayers_spec (freshNames db.names ps) db (freshNames_nodup _ _) hfn
  have hwf1 : db1.wf := by
    unfold DB.wf
    rw [h2]
    exact List.Nodup.append hwf (freshNames_nodup _ _)
      (fun a ha hb => (mem_freshNames.mp hb).2 ha)
  have hall : ∀ p ∈ ps, p.name ∈ db1.names := by
    intro p hp
    rw [h2]
    by_cases hc : p.name ∈ db.names
    · exact List.mem_append_left _ hc
    · exact List.mem_append_right _
        (mem_freshNames.mpr ⟨List.mem_map_of_mem Player.name hp, hc⟩)
  obtain ⟨hlen, hrec⟩ := insertObservations_spec ps db1 hwf1 hall
  have hok : runCycle db ps = .ok (insertObservations db1 ps) := by
    unfold runCycle runCycleWith
    rw [h1]
  have hnm : (insertObservations db1 ps).names = db1.names := by
    unfold DB.names
    rw [insertObservations_players]
  refine ⟨insertObservations db1 ps, hok, ?_, ?_, ?_, ?_, ?_⟩
  · rw [hnm, h2]
  · unfold DB.wf
    rw [hnm]
    exact hwf1
  · intro p hp
    rw [hnm]
    exact hall p hp
  · rw [hlen, h3]
  · intro p hp
    obtain ⟨r, hr1, hr2, hr3, pr, hp1, hp2, hp3⟩ := hrec p hp
    exact ⟨r, hr1, hr2, hr3, pr, by rw [insertObservations_players]; exact hp1, hp2, hp3⟩

lemma playersOfGroups_length : ∀ (gs : List (String × Char × String)) (l : List Player),
    playersOfGroups gs = .ok l → l.length = gs.length := by
  intro gs
  induction gs with
  | nil =>
    intro l h
    simp only [playersOfGroups] at h
    cases h
    rfl
  | cons g gs ih =>
    intro l h
    unfold playersOfGroups at h
    split at h
    · exact Except.noConfusion h
    · split at h
      · exact Except.noConfusion h
      · rename_i p hp ps hps
        cases h
        simp [ih ps hps]

lemma playersOfGroups_error_of_mem : ∀ (gs : List (String × Char × String))
    (g : String × Char × String) (e : PyErr),
    g ∈ gs → Player.make g.1 g.2.1 g.2.2 = .error e →
    ∃ e2, playersOfGroups gs = .error e2 := by
  intro gs
  induction gs with
  | nil =>
    intro g e h
    simp at h
  | cons a t ih =>
    intro g e hg hmk
    rcases List.mem_cons.mp hg with rfl | hgt
    · exact ⟨e, by simp only [playersOfGroups, hmk]⟩
    · cases hE : Player.make a.1 a.2.1 a.2.2 with
      | error e1 => exact ⟨e1, by simp only [playersOfGroups, hE]⟩
      | ok p =>
        obtain ⟨e2, h2⟩ := ih g e hgt hmk
        exact ⟨e2, by simp only [playersOfGroups, hE, h2]⟩

/-! Claim theorems. -/

/-- C1 counterexample: the token "10xFoo" has the claimed shape (digits,
then the single character 'x' outside the six mapped status characters,
then a non-empty remainder), yet poll does not silently discard it: the
WHO_REGEX still matches it, Player.__init__ raises KeyError, and the poll
fails instead of returning a set without the token. -/
theorem who_unmapped_status_cex :
    STATUSES 'x' = none ∧
    whoFullmatch "10xFoo" = some ("10", 'x', "Foo") ∧
    who ["10xFoo"] = Except.error (PyErr.keyError 'x') :=
  ⟨rfl, rfl, rfl⟩

/-- C1 amended: a whitespace-separated token whose regex decomposition
(maximal digit prefix, one further character, non-empty remainder) has a
status character outside the mapped set is not discarded; Player.__init__
raises KeyError on it and the whole poll fails. -/
theorem who_unmapped_status_raises (tokens : List String) (t d : String)
    (c : Char) (n : String) (ht : t ∈ tokens)
    (hm : whoFullmatch t = some (d, c, n)) (hs : STATUSES c = none) :
    ∃ e, who tokens = Except.error e := by
  have hg : (d, c, n) ∈ tokens.filterMap whoFullmatch :=
    List.mem_filterMap.mpr ⟨t, ht, hm⟩
  have hmk : Player.make d c n = .error (.keyError c) := by
    unfold Player.make
    rw [hs]
  exact playersOfGroups_error_of_mem _ (d, c, n) _ hg hmk

/-- Witness for C1 amended at the token "10xFoo". -/
theorem who_unmapped_status_raises_witness :
    ("10xFoo" ∈ ["10xFoo"] ∧ whoFullmatch "10xFoo" = some ("10", 'x', "Foo") ∧
      STATUSES 'x' = none) ∧
    (∃ e, who ["10xFoo"] = Except.error e) :=
  ⟨⟨by decide, rfl, rfl⟩,
   who_unmapped_status_raises ["10xFoo"] "10xFoo" "10" 'x' "Foo" (by decide) rfl rfl⟩

/-- C2 counterexample: a poll failure (KeyError from the unmapped status
character in "10xFoo") terminates the loop at once.  The trace still
contains a later good reply and a later cancellation, but the loop ends
as crashed without consuming either, so it neither retries on the next
interval nor waits for the external cancellation. -/
theorem loop_poll_error_terminates_cex :
    loopRun db0 [CycleInput.reply ["10xFoo"], CycleInput.reply ["1923^GM_Foo"],
      CycleInput.cancel] = LoopState.crashed (PyErr.keyError 'x') db0 :=
  rfl

/-- C2 amended: an exception raised by a single poll aborts that cycle
before any store write (the database in the crashed state is the
pre-cycle one), but it propagates past the loop boundary and terminates
the loop; only KeyboardInterrupt or SystemExit lead to the cancelled
exit, so a poll failure is a second, non-cancellation path to
termination rather than a logged retry. -/
theorem loop_crash_on_poll_error (db : DB) (ts : List String)
    (rest : List CycleInput) (e : PyErr) (h : who ts = .error e) :
    loopRun db (CycleInput.reply ts :: rest) = LoopState.crashed e db := by
  simp only [loopRun, loopStep, h]

/-- Witness for C2 amended at the failing reply ["10xFoo"]. -/
theorem loop_crash_on_poll_error_witness :
    who ["10xFoo"] = Except.error (PyErr.keyError 'x') ∧
    loopRun db0 [CycleInput.reply ["10xFoo"], CycleInput.cancel] =
      LoopState.crashed (PyErr.keyError 'x') db0 :=
  ⟨rfl, loop_crash_on_poll_error db0 ["10xFoo"] [CycleInput.cancel]
    (PyErr.keyError 'x') rfl⟩

/-- C3 counterexample: the players table already holds "A" (a concurrent
writer inserted it after the cycle's SELECT, modelled by the stale known
set []), so the entity INSERT hits the UNIQUE constraint.  The cycle is
aborted with IntegrityError and rolled back: no Observation row for "A"
is inserted, contradicting treat-as-known-and-continue. -/
theorem dup_insert_cex :
    runCycleWith [] dbA [pA] = Except.error (PyErr.integrityError "A") ∧
    runCycleCommitted [] dbA [pA] = dbA ∧
    dbA.observations.length = 0 :=
  ⟨rfl, rfl, rfl⟩

/-- C3 amended: when an entity insert hits the UNIQUE constraint because
the name already exists, sqlite3.IntegrityError aborts the cycle's
transaction; every write of the cycle is rolled back, so no Observation
row is inserted for the name either (and the uncaught exception then
ends the loop). -/
theorem dup_insert_aborts_cycle (known : List String) (db : DB)
    (ps : List Player) (n : String) (hdb : n ∈ db.names) (hk : n ∉ known)
    (hp : n ∈ ps.map Player.name) :
    (∃ e, runCycleWith known db ps = Except.error e) ∧
    runCycleCommitted known db ps = db := by
  have hf : n ∈ freshNames known ps := mem_freshNames.mpr ⟨hp, hk⟩
  obtain ⟨e, he⟩ := insertPlayers_error_of_mem _ db n hf hdb
  have herr : runCycleWith known db ps = .error e := by
    unfold runCycleWith
    rw [he]
  refine ⟨⟨e, herr⟩, ?_⟩
  unfold runCycleCommitted
  rw [herr]
  rfl

/-- Witness for C3 amended at the duplicate name "A". -/
theorem dup_insert_aborts_cycle_witness :
    ("A" ∈ dbA.names ∧ "A" ∉ ([] : List String) ∧ "A" ∈ [pA].map Player.name) ∧
    ((∃ e, runCycleWith [] dbA [pA] = Except.error e) ∧
      runCycleCommitted [] dbA [pA] = dbA) :=
  ⟨⟨by decide, by decide, by decide⟩,
   dup_insert_aborts_cycle [] dbA [pA] "A" (by decide) (by decide) (by decide)⟩

/-- C4: one cycle over a well-formed store inserts exactly one Entity row
per name in fresh = observed names minus known names (the final name
column is the old one extended by exactly the fresh names) and exactly
one Observation row per observed record, fresh or known: the observation
count grows by the number of records, and each record has a row carrying
its rating and status and the id of the player row with its name. -/
theorem runCycle_fresh_and_observations (db : DB) (ps : List Player)
    (hwf : db.wf) :
    ∃ db2, runCycle db ps = Except.ok db2 ∧
      db2.names = db.names ++ freshNames db.names ps ∧
      db2.observations.length = db.observations.length + ps.length ∧
      ∀ p ∈ ps, ∃ r ∈ db2.observations,
        r.rating = p.rating ∧ r.status = p.status ∧
        ∃ pr ∈ db2.players, pr.name = p.name ∧ r.playerid = pr.id := by
  obtain ⟨db2, h1, h2, _, _, h5, h6⟩ := runCycle_main db ps hwf
  exact ⟨db2, h1, h2, h5, h6⟩

/-- Witness for C4 at known = (A, B) and observed names (B, C): one new
entity C, observations for both B and C. -/
theorem runCycle_fresh_and_observations_witness :
    DB.wf dbAB ∧
    (∃ db2, runCycle dbAB psBC = Except.ok db2 ∧
      db2.names = dbAB.names ++ freshNames dbAB.names psBC ∧
      db2.observations.length = dbAB.observations.length + psBC.length ∧
      ∀ p ∈ psBC, ∃ r ∈ db2.observations,
        r.rating = p.rating ∧ r.status = p.status ∧
        ∃ pr ∈ db2.players, pr.name = p.name ∧ r.playerid = pr.id) :=
  ⟨by decide, runCycle_fresh_and_observations dbAB psBC (by decide)⟩

/-- C5 counterexample: the reply tokens "10^Foo" and "11.Foo" parse to
two records with the same name, so running two identical cycles from an
empty store creates one Entity but two Observation rows per cycle for
that single entity, not exactly one per observed entity. -/
theorem dup_name_two_observations_cex :
    who ["10^Foo", "11.Foo"] = Except.ok psFoo ∧
    runCycle db0 psFoo = Except.ok dbFoo1 ∧
    runCycle dbFoo1 psFoo = Except.ok dbFoo2 ∧
    dbFoo1.players.length = 1 ∧
    dbFoo1.observations.length = 2 ∧
    dbFoo2.players.length = 1 ∧
    dbFoo2.observations.length = 4 :=
  ⟨rfl, rfl, rfl, rfl, rfl, rfl, rfl⟩

/-- C5 amended: two consecutive cycles over an identical reply are
idempotent on Entities (the second cycle's fresh set is empty and its
players table is unchanged), and each cycle inserts exactly one
Observation row per parsed record; when the records' names are pairwise
distinct (so records and observed entities coincide, their name set
being the name list itself), that is exactly one per observed entity. -/
theorem runCycle_idempotent (db : DB) (ps : List Player) (hwf : db.wf)
    (hnd : (ps.map Player.name).Nodup) :
    ∃ db1 db2, runCycle db ps = Except.ok db1 ∧
      runCycle db1 ps = Except.ok db2 ∧
      freshNames db1.names ps = [] ∧
      db2.players = db1.players ∧
      db1.observations.length = db.observations.length + ps.length ∧
      db2.observations.length = db1.observations.length + ps.length ∧
      pySet (ps.map Player.name) = ps.map Player.name := by
  obtain ⟨db1, h1, _, hwf1, hall1, hl1, _⟩ := runCycle_main db ps hwf
  have hf2 : freshNames db1.names ps = [] := by
    apply List.eq_nil_iff_forall_not_mem.mpr
    intro n hn
    obtain ⟨hmem, hnotk⟩ := mem_freshNames.mp hn
    obtain ⟨p, hp, rfl⟩ := List.mem_map.mp hmem
    exact hnotk (hall1 p hp)
  have h2 : runCycle db1 ps = .ok (insertObservations db1 ps) := by
    unfold runCycle runCycleWith
    rw [hf2]
    simp [insertPlayers]
  obtain ⟨hl2, _⟩ := insertObservations_spec ps db1 hwf1 hall1
  exact ⟨db1, insertObservations db1 ps, h1, h2, hf2,
    insertObservations_players ps db1, hl1, hl2, pySet_eq_of_nodup hnd⟩

/-- Witness for C5 amended at the distinct-name reply psBC from db0. -/
theorem runCycle_idempotent_witness :
    (DB.wf db0 ∧ (psBC.map Player.name).Nodup) ∧
    (∃ db1 db2, runCycle db0 psBC = Except.ok db1 ∧
      runCycle db1 psBC = Except.ok db2 ∧
      freshNames db1.names psBC = [] ∧
      db2.players = db1.players ∧
      db1.observations.length = db0.observations.length + psBC.length ∧
      db2.observations.length = db1.observations.length + psBC.length ∧
      pySet (psBC.map Player.name) = psBC.map Player.name) :=
  ⟨⟨by decide, by decide⟩, runCycle_idempotent db0 psBC (by decide) (by decide)⟩

/-- C6: the token "1923^GM_Foo" parses to a record with rating the digit
string "1923" (numeric value 1923), status INGAME and name "GM_Foo"; the
tokens "abc" (no digit prefix) and "1923" (no status character or name)
fail the fullmatch and are discarded with no error, yielding an empty
result. -/
theorem who_parser_examples :
    who ["1923^GM_Foo"] =
      Except.ok [⟨"1923", Status.INGAME, "GM_Foo"⟩] ∧
    digitsToNat "1923" = 1923 ∧
    who ["abc"] = Except.ok [] ∧
    who ["1923"] = Except.ok [] :=
  ⟨rfl, rfl, rfl, rfl⟩

/-- C7 counterexample: the reply "1923^Foo 1500.Foo" holds two tokens
with the same name, and poll returns both records; class Player defines
no value equality or hash, so the frozenset keeps one member per
constructed object and nothing is keyed by name. -/
theorem who_same_name_not_collapsed_cex :
    whoReply "1923^Foo 1500.Foo" =
      Except.ok [⟨"1923", Status.INGAME, "Foo"⟩, ⟨"1500", Status.INACTIVE, "Foo"⟩] ∧
    (Player.mk "1923" Status.INGAME "Foo").name =
      (Player.mk "1500" Status.INACTIVE "Foo").name ∧
    Player.mk "1923" Status.INGAME "Foo" ≠ Player.mk "1500" Status.INACTIVE "Foo" :=
  ⟨rfl, rfl, by decide⟩

/-- C7 amended: the collection returned by a successful poll holds
exactly one Record per token matched by the grammar; records are not
keyed by name and two tokens yielding the same name stay distinct
members, name-level deduplication happening only later in the loop's
projection to a name set. -/
theorem who_one_record_per_match (tokens : List String) (l : List Player)
    (h : who tokens = Except.ok l) :
    l.length = (tokens.filterMap whoFullmatch).length :=
  playersOfGroups_length _ l h

/-- Witness for C7 amended at the duplicate-name reply. -/
theorem who_one_record_per_match_witness :
    who ["1923^Foo", "1500.Foo"] =
      Except.ok [⟨"1923", Status.INGAME, "Foo"⟩, ⟨"1500", Status.INACTIVE, "Foo"⟩] ∧
    ([⟨"1923", Status.INGAME, "Foo"⟩, ⟨"1500", Status.INACTIVE, "Foo"⟩] : List Player).length =
      (["1923^Foo", "1500.Foo"].filterMap whoFullmatch).length :=
  ⟨rfl, who_one_record_per_match ["1923^Foo", "1500.Foo"] _ rfl⟩

/-- C8: the cycle's writes run inside one sqlite3 "with con:" block, so
when any statement of the transaction raises, the whole transaction is
rolled back and the visible state is the entry state: no Entity row and
no Observation row of the cycle survives, including entity inserts that
had already succeeded earlier in the same transaction. -/
theorem cycle_rollback_atomic (known : List String) (db : DB)
    (ps : List Player) (e : PyErr)
    (h : runCycleWith known db ps = Except.error e) :
    runCycleCommitted known db ps = db := by
  unfold runCycleCommitted
  rw [h]
  rfl

/-- Witness for C8: the cycle over (B, A) against a store already holding
"A" inserts B, then fails on A; afterwards neither B's entity row nor any
observation row is visible. -/
theorem cycle_rollback_atomic_witness :
    runCycleWith [] dbA [pB, pA] = Except.error (PyErr.integrityError "A") ∧
    runCycleCommitted [] dbA [pB, pA] = dbA :=
  ⟨rfl, cycle_rollback_atomic [] dbA [pB, pA] (PyErr.integrityError "A") rfl⟩

/-- C10: the observation INSERT is an INSERT-SELECT keyed on the player
name; for a record whose name has no players row it inserts zero rows
and raises nothing, so a cycle in which the name was (staleley) known and
hence not freshly inserted completes while silently dropping that
record's observation. -/
theorem missing_name_observation_noop (db : DB) (p : Player)
    (known : List String) (h1 : p.name ∉ db.names) (h2 : p.name ∈ known) :
    insertObservation db p = db ∧ runCycleWith known db [p] = Except.ok db := by
  have hobs : insertObservation db p = db := by
    unfold insertObservation
    rw [filter_name_nil h1]
    simp
  refine ⟨hobs, ?_⟩
  have hfr : freshNames known [p] = [] := by
    simp [freshNames, pySet, h2]
  unfold runCycleWith
  rw [hfr]
  simp [insertPlayers, insertObservations, hobs]

/-- Witness for C10 at a record whose name is absent from the players
table but present in the stale known set. -/
theorem missing_name_observation_noop_witness :
    (pGhost.name ∉ db0.names ∧ pGhost.name ∈ ["Ghost"]) ∧
    (insertObservation db0 pGhost = db0 ∧
      runCycleWith ["Ghost"] db0 [pGhost] = Except.ok db0) :=
  ⟨⟨by decide, by decide⟩,
   missing_name_observation_noop db0 pGhost ["Ghost"] (by decide) (by decide)⟩
